import Mathlib

/-!
Shallow embedding of the change-detection core of Houeta/chrono-flow.

The Go sources embedded here:
* `internal/models` — `Product`, `State`, `ChangeInfo`, `Changes`;
* `internal/services/checker/checker.go` — `calculateHash`, `detectChanges`,
  `CheckForUpdates`;
* the sqlite repository (`GetState`, `UpdateState`) — the database is modelled
  as an explicit record (`DB`), SQL statements as functions on it, and SQL
  transaction semantics (begin / rollback / commit) as: effects of the
  statements executed inside the transaction become visible only at a
  successful commit;
* `internal/parser` — `parseTableResponse`, with the goquery HTML traversal
  abstracted into its output: the list of table rows, each a list of cell
  texts.

Machine integers do not occur in the embedded code paths (all product fields
are strings); SHA-256, used by `calculateHash` through Go's `crypto/sha256`,
is embedded over `Nat` with explicit `% 2^32` reductions per FIPS 180-4.
Failure injection: Go's `error` results of the SQL driver are modelled by
explicit fail-point records passed to the repository functions.
-/

namespace ChronoFlow

/-- Go struct `models.Product`: one catalog entry; all fields opaque
strings. Field `Type` is rendered `Type'` because `Type` is a Lean keyword. -/
structure Product where
  Model : String
  Type' : String
  Quantity : String
  ImageURL : String
  Price : String
deriving DecidableEq, Repr

/-- Go struct `models.State`: the complete persisted snapshot. -/
structure State where
  PageHash : String
  Products : List Product
deriving DecidableEq, Repr

/-- Go struct `models.ChangeInfo`: one changed product, old and new version. -/
structure ChangeInfo where
  Old : Product
  New : Product
deriving DecidableEq, Repr

/-- Go struct `models.Changes`: the classified delta. -/
structure Changes where
  Added : List Product
  Removed : List Product
  Changed : List ChangeInfo
deriving DecidableEq, Repr

/-! ## SHA-256 (Go `crypto/sha256.Sum256`, per FIPS 180-4), over byte lists -/

/-- Reduce to a 32-bit word. -/
def w32 (n : Nat) : Nat := n % 4294967296

/-- Rotate a 32-bit word right by `n` bits. -/
def rotr (x n : Nat) : Nat := w32 ((x >>> n) ||| (x <<< (32 - n)))

def shaCh (x y z : Nat) : Nat := (x &&& y) ^^^ ((4294967295 ^^^ x) &&& z)

def shaMaj (x y z : Nat) : Nat := (x &&& y) ^^^ (x &&& z) ^^^ (y &&& z)

def bigSigma0 (x : Nat) : Nat := (rotr x 2) ^^^ ((rotr x 13) ^^^ (rotr x 22))

def bigSigma1 (x : Nat) : Nat := (rotr x 6) ^^^ ((rotr x 11) ^^^ (rotr x 25))

def smallSigma0 (x : Nat) : Nat := (rotr x 7) ^^^ ((rotr x 18) ^^^ (x >>> 3))

def smallSigma1 (x : Nat) : Nat := (rotr x 17) ^^^ ((rotr x 19) ^^^ (x >>> 10))

/-- The SHA-256 round constants, in decimal. -/
def shaK : List Nat :=
  [1116352408, 1899447441, 3049323471, 3921009573, 961987163,
   1508970993, 2453635748, 2870763221, 3624381080, 310598401,
   607225278, 1426881987, 1925078388, 2162078206, 2614888103,
   3248222580, 3835390401, 4022224774, 264347078, 604807628,
   770255983, 1249150122, 1555081692, 1996064986, 2554220882,
   2821834349, 2952996808, 3210313671, 3336571891, 3584528711,
   113926993, 338241895, 666307205, 773529912, 1294757372,
   1396182291, 1695183700, 1986661051, 2177026350, 2456956037,
   2730485921, 2820302411, 3259730800, 3345764771, 3516065817,
   3600352804, 4094571909, 275423344, 430227734, 506948616,
   659060556, 883997877, 958139571, 1322822218, 1537002063,
   1747873779, 1955562222, 2024104815, 2227730452, 2361852424,
   2428436474, 2756734187, 3204031479, 3329325298]

/-- The SHA-256 initial hash value, in decimal. -/
def shaH0 : List Nat :=
  [1779033703, 3144134277, 1013904242, 2773480762,
   1359893119, 2600822924, 528734635, 1541459225]

/-- Big-endian word from bytes. -/
def wordOfBytes (bs : List Nat) : Nat := bs.foldl (fun acc b => acc * 256 + b) 0

/-- FIPS 180-4 padding: append `0x80`, zeros to 56 mod 64, then the 64-bit
big-endian bit length. -/
def shaPad (msg : List Nat) : List Nat :=
  let bitLen := msg.length * 8
  msg ++ 0x80 :: List.replicate ((119 - msg.length % 64) % 64) 0 ++
    [(bitLen >>> 56) % 256, (bitLen >>> 48) % 256, (bitLen >>> 40) % 256,
     (bitLen >>> 32) % 256, (bitLen >>> 24) % 256, (bitLen >>> 16) % 256,
     (bitLen >>> 8) % 256, bitLen % 256]

/-- Split a (padded) message into 64-byte blocks. -/
def chunks64 (l : List Nat) : List (List Nat) :=
  (List.range ((l.length + 63) / 64)).map (fun i => ((l.drop (64 * i)).take 64))

/-- The 64-word message schedule of one block. -/
def shaSchedule (block : List Nat) : List Nat :=
  let ws0 := (List.range 16).map (fun i => wordOfBytes ((block.drop (4 * i)).take 4))
  (List.range 48).foldl
    (fun ws _ =>
      let n := ws.length
      ws ++ [w32 (smallSigma1 (ws.getD (n - 2) 0) + ws.getD (n - 7) 0 +
                  smallSigma0 (ws.getD (n - 15) 0) + ws.getD (n - 16) 0)])
    ws0

/-- One round of the SHA-256 compression loop on the eight working words. -/
def shaRound (ws : List Nat) (st : List Nat) (t : Nat) : List Nat :=
  match st with
  | [a, b, c, d, e, f, g, h] =>
    let t1 := w32 (h + bigSigma1 e + shaCh e f g + shaK.getD t 0 + ws.getD t 0)
    let t2 := w32 (bigSigma0 a + shaMaj a b c)
    [w32 (t1 + t2), a, b, c, w32 (d + t1), e, f, g]
  | other => other

/-- Process one 64-byte block. -/
def shaCompress (h : List Nat) (block : List Nat) : List Nat :=
  let ws := shaSchedule block
  let st := (List.range 64).foldl (shaRound ws) h
  List.zipWith (fun x y => w32 (x + y)) h st

/-- SHA-256 digest (32 bytes) of a byte list. -/
def sha256 (msg : List Nat) : List Nat :=
  let hs := (chunks64 (shaPad msg)).foldl shaCompress shaH0
  (hs.map (fun w => [(w >>> 24) % 256, (w >>> 16) % 256, (w >>> 8) % 256, w % 256])).flatten

def hexDigit (n : Nat) : Char := "0123456789abcdef".toList.getD n '0'

/-- Lowercase hex rendering of a byte list, Go's `fmt.Sprintf "%x"`. -/
def toHex (bytes : List Nat) : String :=
  String.mk (bytes.foldr (fun b acc => hexDigit (b / 16 % 16) :: hexDigit (b % 16) :: acc) [])

/-- Go `checker.calculateHash`: `fmt.Sprintf("%x", sha256.Sum256(data))`. -/
def calculateHash (data : List Nat) : String := toHex (sha256 data)

set_option maxRecDepth 100000

example : calculateHash [] =
    "e3b0c44298fc1c149afbf4c8996fb92427ae41e4649b934ca495991b7852b855" := by decide

/-! ## `checker.detectChanges`

Go builds `map[string]models.Product` from each list and iterates over the
new map. A Go map is embedded as an association list with at most one entry
per key; `m[k] = v` removes the old entry for `k` and appends `(k, v)`.
Go leaves map iteration order unspecified, so fixing this order is a
faithful refinement; nothing in the spec or the claims depends on the order
of the delta lists. -/

/-- Association-list embedding of `map[string]models.Product`. -/
abbrev PMap := List (String × Product)

/-- Go `oldProduct, found := m[k]`: `some` iff the key is present. -/
def mlookup (m : PMap) (k : String) : Option Product :=
  (m.find? (fun e => e.1 == k)).map (fun e => e.2)

/-- Go `delete(m, k)`. -/
def merase (m : PMap) (k : String) : PMap := m.filter (fun e => e.1 != k)

/-- Go `m[k] = v` (replace or add). -/
def minsert (m : PMap) (k : String) (v : Product) : PMap := merase m k ++ [(k, v)]

/-- The two `make`+`for` loops of `detectChanges`: key every product by its
`Model`, later occurrences overwriting earlier ones. -/
def buildMap (ps : List Product) : PMap :=
  ps.foldl (fun m p => minsert m p.Model p) []

/-- Body of the `for newModel, newProduct := range newMap` loop of
`detectChanges`, threading the `changes` accumulator and the shrinking
`oldMap`. -/
def diffStep (acc : Changes × PMap) (e : String × Product) : Changes × PMap :=
  match mlookup acc.2 e.1 with
  | some oldProduct =>
    (if e.2.Price != oldProduct.Price || e.2.Quantity != oldProduct.Quantity then
       { acc.1 with Changed := acc.1.Changed ++ [⟨oldProduct, e.2⟩] }
     else acc.1,
     merase acc.2 e.1)
  | none => ({ acc.1 with Added := acc.1.Added ++ [e.2] }, acc.2)

/-- Go `checker.detectChanges`: compare two product lists. The products left in
`oldMap` after the loop become `Removed`. -/
def detectChanges (oldProducts newProducts : List Product) : Changes :=
  let res := (buildMap newProducts).foldl diffStep (⟨[], [], []⟩, buildMap oldProducts)
  { res.1 with Removed := res.1.Removed ++ res.2.map (fun e => e.2) }

/-! ## `parser.parseTableResponse`

The goquery traversal `doc.Find(".table-bordered tbody tr")` /
`s.Find("td")` is external library code; its result is taken as the input:
the list of table rows, each the list of its cells' text contents. The loop
body is the embedded code: a row is kept exactly when it has five cells, its
cells trimmed into the `Product` fields in source order (model, type,
quantity, image, price); rows with any other cell count are skipped. -/

/-- Go `strings.TrimSpace`: drop leading and trailing whitespace. -/
def trimSpace (s : String) : String :=
  String.mk (((s.data.dropWhile Char.isWhitespace).reverse.dropWhile
    Char.isWhitespace).reverse)

/-- One iteration of the row loop: a row with exactly five cells yields a
product (cells trimmed, in the source's index order model/type/quantity/
image/price); any other cell count is skipped with a warning. -/
def parseRow (cells : List String) : Option Product :=
  match cells with
  | [m, t, q, img, pr] =>
    some ⟨trimSpace m, trimSpace t, trimSpace q, trimSpace img, trimSpace pr⟩
  | _ => none

def parseTableResponse (rows : List (List String)) : List Product :=
  rows.foldl
    (fun products cells =>
      match parseRow cells with
      | some p => products ++ [p]
      | none => products)
    []

/-! ## The sqlite repository

The database of `initSchema`: table `page_state` (single row, `id = 1`,
column `page_hash`) and table `products` with `model TEXT PRIMARY KEY` and
the four attribute columns. `DB.page_state` is the `page_hash` of the row
with `id = 1` when that row exists; `DB.products` the rows of `products` in
insertion order. Driver-level failures of individual SQL calls are injected
through explicit fail-point records. -/

structure DB where
  page_state : Option String
  products : List Product
deriving DecidableEq, Repr

/-- A store to which no snapshot has ever been written. -/
def DB.init : DB := ⟨none, []⟩

/-- Injected driver failures for the four fallible steps of `GetState`
(`QueryRowContext`, `QueryContext`, `rows.Scan`, `rows.Err`). A scan failure
can only fire when there is a row to scan. -/
structure ReadFail where
  hashFail : Bool
  productsFail : Bool
  scanFail : Bool
  rowsFail : Bool
deriving DecidableEq, Repr

def noReadFail : ReadFail := ⟨false, false, false, false⟩

/-- The errors `GetState` can return: `repository.ErrStateNotFound` or a
wrapped driver error naming the failed step. -/
inductive RepoErr
  | stateNotFound
  | hashQueryFail
  | productsQueryFail
  | scanRowFail
  | rowsIterFail
deriving DecidableEq, Repr

/-- Go `Repository.GetState`: read `page_hash` (no row with `id = 1` — i.e.
`sql.ErrNoRows` — becomes `ErrStateNotFound`), then read all products. -/
def GetState (db : DB) (f : ReadFail) : Except RepoErr State :=
  if f.hashFail then .error .hashQueryFail
  else
    match db.page_state with
    | none => .error .stateNotFound
    | some pageHash =>
      if f.productsFail then .error .productsQueryFail
      else if f.scanFail && !db.products.isEmpty then .error .scanRowFail
      else if f.rowsFail then .error .rowsIterFail
      else .ok ⟨pageHash, db.products⟩

/-- The errors `UpdateState` can return, one per fallible step. -/
inductive UpdErr
  | beginTxFail
  | updateHashFail
  | deleteProductsFail
  | prepareFail
  | insertFail (model : String)
  | commitFail
deriving DecidableEq, Repr

/-- Injected driver failures for the steps of `UpdateState`. An insert of a
product whose model is in `insertFailOn` fails at the driver; independently,
inserting a model already present in the table violates the primary key. -/
structure FailSpec where
  beginTxFail : Bool
  hashFail : Bool
  deleteFail : Bool
  prepareFail : Bool
  insertFailOn : List String
  commitFail : Bool
deriving DecidableEq, Repr

def noUpdFail : FailSpec := ⟨false, false, false, false, [], false⟩

/-- The `for _, p := range state.Products` insert loop of `UpdateState`,
acting on the in-transaction `products` table. A plain
`INSERT INTO products` fails on a duplicate `model` (primary key). -/
def insertLoop (f : FailSpec) (tbl : List Product) : List Product → Except UpdErr (List Product)
  | [] => .ok tbl
  | p :: rest =>
    if f.insertFailOn.contains p.Model then .error (.insertFail p.Model)
    else if tbl.any (fun q => q.Model == p.Model) then .error (.insertFail p.Model)
    else insertLoop f (tbl ++ [p]) rest

/-- Go `Repository.UpdateState`: `BeginTx`; `INSERT OR REPLACE` the page hash
(in-transaction state gains `page_state = some state.PageHash`);
`DELETE FROM products` (the in-transaction products table becomes empty, so
the insert loop starts from `[]`); prepare and run the insert loop;
`Commit`. Transaction semantics of database/sql with sqlite: the statements
act on an in-transaction state that becomes the visible database only at a
successful commit; on any error the deferred `Rollback` leaves the visible
database exactly as it was, so every failing branch returns `db`. -/
def UpdateState (db : DB) (state : State) (f : FailSpec) : Option UpdErr × DB :=
  if f.beginTxFail then (some .beginTxFail, db)
  else if f.hashFail then (some .updateHashFail, db)
  else if f.deleteFail then (some .deleteProductsFail, db)
  else if f.prepareFail then (some .prepareFail, db)
  else
    match insertLoop f [] state.Products with
    | .error e => (some e, db)
    | .ok tbl =>
      if f.commitFail then (some .commitFail, db)
      else (none, { page_state := some state.PageHash, products := tbl })

/-! ## `checker.CheckForUpdates`

The collaborators reached through interfaces (`parser.GetHTMLResponse`,
`io.ReadAll`, `parser.ParseTableResponse`) are oracles in the environment;
the repository runs on the `DB` model above. The result records the final
visible database and how many times the extractor, the differ and the
store's replace were invoked. -/

inductive CheckErr
  | getHTMLFail
  | readBodyFail
  | getStateFail (e : RepoErr)
  | parseFail
  | updateStateFail (e : UpdErr)
deriving DecidableEq, Repr

structure CheckEnv where
  getHTMLOk : Bool
  readBody : Option (List Nat)
  parse : Option (List Product)
  readFail : ReadFail
  updFail : FailSpec
deriving Repr

deriving instance DecidableEq for Except

structure CheckResult where
  result : Except CheckErr Changes
  db : DB
  extractCalls : Nat
  diffCalls : Nat
  replaceCalls : Nat
deriving DecidableEq, Repr

/-- Steps 4–6 of `CheckForUpdates` (parse, `detectChanges`, `UpdateState`),
shared by the first-run path (`oldProducts = []`) and the hash-differs
path. -/
def fullAnalysis (env : CheckEnv) (db : DB) (newPageHash : String)
    (oldProducts : List Product) : CheckResult :=
  match env.parse with
  | none => ⟨.error .parseFail, db, 1, 0, 0⟩
  | some newProducts =>
    let changes := detectChanges oldProducts newProducts
    match UpdateState db ⟨newPageHash, newProducts⟩ env.updFail with
    | (some e, db') => ⟨.error (.updateStateFail e), db', 1, 1, 1⟩
    | (none, db') => ⟨.ok changes, db', 1, 1, 1⟩

/-- Go `Checker.CheckForUpdates`: fetch, hash, read the old state (a
`ErrStateNotFound` is not fatal), short-circuit when the stored hash equals
the new hash, otherwise run the full analysis. -/
def CheckForUpdates (env : CheckEnv) (db : DB) : CheckResult :=
  if env.getHTMLOk then
    match env.readBody with
    | none => ⟨.error .readBodyFail, db, 0, 0, 0⟩
    | some body =>
      let newPageHash := calculateHash body
      match GetState db env.readFail with
      | .error .stateNotFound => fullAnalysis env db newPageHash []
      | .error e => ⟨.error (.getStateFail e), db, 0, 0, 0⟩
      | .ok oldState =>
        if oldState.PageHash = newPageHash then ⟨.ok ⟨[], [], []⟩, db, 0, 0, 0⟩
        else fullAnalysis env db newPageHash oldState.Products
  else ⟨.error .getHTMLFail, db, 0, 0, 0⟩

section Scratch

def pA1 : Product := ⟨"A1", "T", "5", "u", "100"⟩
def pA1' : Product := ⟨"A1", "T", "5", "u", "110"⟩
def pB2 : Product := ⟨"B2", "T", "1", "u", "50"⟩
def pC3 : Product := ⟨"C3", "T", "2", "u", "60"⟩

example : detectChanges [pA1] [pA1'] = ⟨[], [], [⟨pA1, pA1'⟩]⟩ := by decide
example : detectChanges [pB2] [pC3] = ⟨[pC3], [pB2], []⟩ := by decide
example : detectChanges [] [pA1, pB2] = ⟨[pA1, pB2], [], []⟩ := by decide
example : GetState DB.init noReadFail = .error .stateNotFound := by decide
example : UpdateState DB.init ⟨"h", [pA1, pB2]⟩ noUpdFail =
    (none, ⟨some "h", [pA1, pB2]⟩) := by decide
example : (UpdateState ⟨some "h", [pA1]⟩ ⟨"h2", [pA1, pA1']⟩ noUpdFail).1 =
    some (.insertFail "A1") := by decide

end Scratch

/-! ## Specification-level notions for the diff -/

/-- The identifiers of a collection. -/
def models (ps : List Product) : List String := ps.map (fun p => p.Model)

/-- The keys of an association list. -/
def mkeys (m : PMap) : List String := m.map (fun e => e.1)

/-- The last occurrence in `ps` of a product with identifier `k`. -/
def lastOcc (ps : List Product) (k : String) : Option Product :=
  ps.reverse.find? (fun p => p.Model == k)

/-! ## Association-list lemmas -/

theorem mlookup_append (m₁ m₂ : PMap) (k : String) :
    mlookup (m₁ ++ m₂) k = (mlookup m₁ k).or (mlookup m₂ k) := by
  simp only [mlookup, List.find?_append]
  cases m₁.find? (fun e => e.1 == k) <;> simp

theorem mlookup_merase_self (m : PMap) (k : String) : mlookup (merase m k) k = none := by
  simp only [mlookup, merase, Option.map_eq_none', List.find?_eq_none]
  intro x hx
  have h2 := (List.mem_filter.mp hx).2
  simp only [bne_iff_ne, ne_eq] at h2
  simp [h2]

theorem mlookup_merase_ne (m : PMap) {k k' : String} (h : k ≠ k') :
    mlookup (merase m k') k = mlookup m k := by
  unfold mlookup merase
  congr 1
  rw [List.find?_filter]
  congr 1
  funext a
  by_cases ha : a.1 = k
  · subst ha
    simp [bne_iff_ne, Ne.symm, h]
  · simp [ha]

theorem mlookup_single (k' : String) (v : Product) (k : String) :
    mlookup [(k', v)] k = if k = k' then some v else none := by
  by_cases h : k = k'
  · subst h; simp [mlookup]
  · have hb : ((k', v).1 == k) = false := by simpa using Ne.symm h
    simp [mlookup, List.find?_cons, hb, h]

theorem mlookup_minsert (m : PMap) (k' : String) (v : Product) (k : String) :
    mlookup (minsert m k' v) k = if k = k' then some v else mlookup m k := by
  unfold minsert
  rw [mlookup_append, mlookup_single]
  by_cases h : k = k'
  · subst h; simp [mlookup_merase_self]
  · simp [h, mlookup_merase_ne m h, Option.or_none]

theorem mlookup_eq_none_iff (m : PMap) (k : String) :
    mlookup m k = none ↔ k ∉ mkeys m := by
  simp only [mlookup, Option.map_eq_none', List.find?_eq_none, mkeys, List.mem_map,
    beq_iff_eq]
  constructor
  · rintro h ⟨e, he, rfl⟩
    exact h e he rfl
  · intro h e he hk
    exact h ⟨e, he, hk⟩

theorem mlookup_isSome_iff (m : PMap) (k : String) :
    (mlookup m k).isSome ↔ k ∈ mkeys m := by
  simp [mlookup, mkeys, List.find?_isSome, List.mem_map, beq_iff_eq]

theorem mlookup_mem {m : PMap} {k : String} {v : Product} (h : mlookup m k = some v) :
    (k, v) ∈ m := by
  unfold mlookup at h
  obtain ⟨e, he, hev⟩ := Option.map_eq_some'.mp h
  have h1 := List.find?_some he
  have h2 := List.mem_of_find?_eq_some he
  obtain ⟨k₀, v₀⟩ := e
  simp only [beq_iff_eq] at h1
  cases h1
  cases hev
  exact h2

theorem mem_mlookup {m : PMap} (hn : (mkeys m).Nodup) {k : String} {v : Product}
    (h : (k, v) ∈ m) : mlookup m k = some v := by
  induction m with
  | nil => cases h
  | cons e t ih =>
    simp only [mkeys, List.map_cons, List.nodup_cons] at hn
    rcases List.mem_cons.mp h with he | ht
    · subst he
      simp [mlookup, List.find?_cons_of_pos]
    · have hne : ¬((e.1 == k) = true) := by
        simp only [beq_iff_eq]
        intro hh
        apply hn.1
        rw [hh]
        exact List.mem_map.mpr ⟨(k, v), ht, rfl⟩
      rw [show mlookup (e :: t) k = mlookup t k from by
        unfold mlookup
        rw [List.find?_cons_of_neg t hne]]
      exact ih hn.2 ht

theorem mkeys_merase (m : PMap) (k : String) :
    mkeys (merase m k) = (mkeys m).filter (fun x => x != k) := by
  simp only [mkeys, merase]
  rw [List.filter_map]
  rfl

theorem mkeys_minsert_nodup {m : PMap} (hn : (mkeys m).Nodup) (k : String) (v : Product) :
    (mkeys (minsert m k v)).Nodup := by
  have : mkeys (minsert m k v) = mkeys (merase m k) ++ [k] := by
    simp [minsert, mkeys]
  rw [this, List.nodup_append, mkeys_merase]
  refine ⟨hn.filter _, List.nodup_singleton k, ?_⟩
  intro x hx hk
  rcases List.mem_singleton.mp hk with rfl
  have := (List.mem_filter.mp hx).2
  simp at this

theorem buildMap_go_keys_nodup (ps : List Product) :
    ∀ m : PMap, (mkeys m).Nodup →
      (mkeys (ps.foldl (fun m p => minsert m p.Model p) m)).Nodup := by
  induction ps with
  | nil => intro m hm; simpa using hm
  | cons p t ih =>
    intro m hm
    simpa using ih (minsert m p.Model p) (mkeys_minsert_nodup hm _ _)

theorem buildMap_keys_nodup (ps : List Product) : (mkeys (buildMap ps)).Nodup :=
  buildMap_go_keys_nodup ps [] (by simp [mkeys])

theorem buildMap_go_entry (ps : List Product) :
    ∀ m : PMap, (∀ e ∈ m, e.1 = e.2.Model) →
      ∀ e ∈ ps.foldl (fun m p => minsert m p.Model p) m, e.1 = e.2.Model := by
  induction ps with
  | nil => intro m hm; simpa using hm
  | cons p t ih =>
    intro m hm
    refine ih (minsert m p.Model p) ?_
    intro e he
    rcases List.mem_append.mp he with hf | hs
    · exact hm e (List.mem_filter.mp hf).1
    · rcases List.mem_singleton.mp hs with rfl; rfl

theorem buildMap_entry {ps : List Product} {e : String × Product}
    (h : e ∈ buildMap ps) : e.1 = e.2.Model :=
  buildMap_go_entry ps [] (by simp) e h

theorem lastOcc_cons (p : Product) (ps : List Product) (k : String) :
    lastOcc (p :: ps) k = (lastOcc ps k).or (if p.Model == k then some p else none) := by
  simp only [lastOcc, List.reverse_cons, List.find?_append]
  congr 1
  by_cases h : p.Model = k <;> simp [List.find?_cons, h]

theorem mlookup_buildMap_go (ps : List Product) :
    ∀ (m : PMap) (k : String),
      mlookup (ps.foldl (fun m p => minsert m p.Model p) m) k =
        (lastOcc ps k).or (mlookup m k) := by
  induction ps with
  | nil => intro m k; simp [lastOcc]
  | cons p t ih =>
    intro m k
    simp only [List.foldl_cons]
    rw [ih, lastOcc_cons, Option.or_assoc]
    congr 1
    rw [mlookup_minsert]
    by_cases h : k = p.Model
    · subst h; simp
    · have hb : (p.Model == k) = false := by
        simp only [beq_eq_false_iff_ne, ne_eq]
        intro hh
        exact h hh.symm
      simp [h, hb]

theorem mlookup_buildMap (ps : List Product) (k : String) :
    mlookup (buildMap ps) k = lastOcc ps k := by
  rw [buildMap, mlookup_buildMap_go]
  show (lastOcc ps k).or none = lastOcc ps k
  exact Option.or_none

theorem mem_buildMap_iff {ps : List Product} {k : String} {v : Product} :
    (k, v) ∈ buildMap ps ↔ lastOcc ps k = some v := by
  constructor
  · intro h
    rw [← mlookup_buildMap]
    exact mem_mlookup (buildMap_keys_nodup ps) h
  · intro h
    exact mlookup_mem (by rw [mlookup_buildMap]; exact h)

theorem lastOcc_some_model {ps : List Product} {k : String} {p : Product}
    (h : lastOcc ps k = some p) : p.Model = k := by
  have := List.find?_some h
  simpa using this

theorem lastOcc_some_mem {ps : List Product} {k : String} {p : Product}
    (h : lastOcc ps k = some p) : p ∈ ps := by
  have := List.mem_of_find?_eq_some h
  simpa using this

theorem lastOcc_isSome_iff (ps : List Product) (k : String) :
    (lastOcc ps k).isSome ↔ k ∈ models ps := by
  simp only [lastOcc, List.find?_isSome, List.mem_reverse, models, List.mem_map, beq_iff_eq]

theorem lastOcc_eq_none_iff (ps : List Product) (k : String) :
    lastOcc ps k = none ↔ k ∉ models ps := by
  rw [← lastOcc_isSome_iff]
  cases h : lastOcc ps k <;> simp [h]

theorem mem_models_iff_lastOcc (ps : List Product) (k : String) :
    k ∈ models ps ↔ ∃ p, lastOcc ps k = some p := by
  rw [← lastOcc_isSome_iff]
  cases h : lastOcc ps k <;> simp [h]

/-! ## Characterisation of the `detectChanges` fold -/

/-- Products of `L` whose key is absent from `om`: what the loop adds to
`Added`. -/
def addedOf (om L : PMap) : List Product :=
  (L.filter (fun e => (mlookup om e.1).isNone)).map (fun e => e.2)

/-- Changed pairs the loop collects from `L` against `om`. -/
def changedOf (om L : PMap) : List ChangeInfo :=
  L.filterMap (fun e => (mlookup om e.1).bind (fun o =>
    if e.2.Price != o.Price || e.2.Quantity != o.Quantity then some ⟨o, e.2⟩ else none))

/-- Residue: `om` with every key of `L` deleted: the residue that becomes `Removed`. -/
def removeKeys (om L : PMap) : PMap :=
  om.filter (fun e => !(L.any (fun e2 => e2.1 == e.1)))

theorem addedOf_congr {om om' L : PMap}
    (h : ∀ e ∈ L, mlookup om e.1 = mlookup om' e.1) : addedOf om L = addedOf om' L := by
  unfold addedOf
  congr 1
  apply List.filter_congr
  intro e he
  rw [h e he]

theorem changedOf_congr {om om' L : PMap}
    (h : ∀ e ∈ L, mlookup om e.1 = mlookup om' e.1) : changedOf om L = changedOf om' L := by
  unfold changedOf
  apply List.filterMap_congr
  intro e he
  rw [h e he]

theorem addedOf_cons_none {om : PMap} {e : String × Product} {t : PMap}
    (h : mlookup om e.1 = none) : addedOf om (e :: t) = e.2 :: addedOf om t := by
  simp [addedOf, List.filter_cons, h]

theorem addedOf_cons_some {om : PMap} {e : String × Product} {t : PMap} {o : Product}
    (h : mlookup om e.1 = some o) : addedOf om (e :: t) = addedOf om t := by
  simp [addedOf, List.filter_cons, h]

theorem changedOf_cons_none {om : PMap} {e : String × Product} {t : PMap}
    (h : mlookup om e.1 = none) : changedOf om (e :: t) = changedOf om t := by
  simp [changedOf, List.filterMap_cons, h]

theorem changedOf_cons_some {om : PMap} {e : String × Product} {t : PMap} {o : Product}
    (h : mlookup om e.1 = some o) :
    changedOf om (e :: t) =
      (if e.2.Price != o.Price || e.2.Quantity != o.Quantity
        then [ChangeInfo.mk o e.2] else []) ++ changedOf om t := by
  simp only [changedOf, List.filterMap_cons, h, Option.some_bind]
  split <;> simp_all

theorem any_key_iff (L : PMap) (k : String) :
    (L.any (fun e2 => e2.1 == k)) = true ↔ k ∈ mkeys L := by
  simp only [List.any_eq_true, mkeys, List.mem_map, beq_iff_eq]

theorem removeKeys_nil (om : PMap) : removeKeys om [] = om := by
  simp [removeKeys]

theorem removeKeys_cons_none {om : PMap} {e : String × Product} {t : PMap}
    (h : mlookup om e.1 = none) : removeKeys om (e :: t) = removeKeys om t := by
  unfold removeKeys
  apply List.filter_congr
  intro x hx
  have hxk : x.1 ≠ e.1 := by
    intro hh
    exact (mlookup_eq_none_iff om e.1).mp h (hh ▸ List.mem_map.mpr ⟨x, hx, rfl⟩)
  have hb : (e.1 == x.1) = false := by
    simp only [beq_eq_false_iff_ne, ne_eq]
    intro hh
    exact hxk hh.symm
  simp [List.any_cons, hb]

theorem removeKeys_cons_some {om : PMap} {e : String × Product} {t : PMap} :
    removeKeys om (e :: t) = removeKeys (merase om e.1) t := by
  unfold removeKeys merase
  rw [List.filter_filter]
  apply List.filter_congr
  intro x hx
  by_cases hx1 : x.1 = e.1
  · simp [List.any_cons, hx1]
  · have h1 : (e.1 == x.1) = false := by
      simp only [beq_eq_false_iff_ne, ne_eq]
      intro hh
      exact hx1 hh.symm
    have h2 : (x.1 != e.1) = true := by simp [hx1]
    simp [List.any_cons, h1, h2]

theorem diffStep_none {c : Changes} {om : PMap} {e : String × Product}
    (h : mlookup om e.1 = none) :
    diffStep (c, om) e = ({ c with Added := c.Added ++ [e.2] }, om) := by
  simp [diffStep, h]

theorem diffStep_some {c : Changes} {om : PMap} {e : String × Product} {o : Product}
    (h : mlookup om e.1 = some o) :
    diffStep (c, om) e =
      (if e.2.Price != o.Price || e.2.Quantity != o.Quantity
        then { c with Changed := c.Changed ++ [ChangeInfo.mk o e.2] } else c,
       merase om e.1) := by
  simp [diffStep, h]

theorem diffFold (L : PMap) :
    ∀ (om : PMap) (c : Changes), (mkeys L).Nodup →
      L.foldl diffStep (c, om) =
        ({ Added := c.Added ++ addedOf om L,
           Removed := c.Removed,
           Changed := c.Changed ++ changedOf om L }, removeKeys om L) := by
  induction L with
  | nil =>
    intro om c _
    simp [addedOf, changedOf, removeKeys_nil]
  | cons e t ih =>
    intro om c hn
    simp only [mkeys, List.map_cons, List.nodup_cons] at hn
    have hnt : (mkeys t).Nodup := hn.2
    have he1 : e.1 ∉ mkeys t := hn.1
    simp only [List.foldl_cons]
    cases hl : mlookup om e.1 with
    | none =>
      rw [diffStep_none hl, ih om _ hnt, addedOf_cons_none hl, changedOf_cons_none hl,
        removeKeys_cons_none hl]
      simp
    | some o =>
      have hagree : ∀ x ∈ t, mlookup (merase om e.1) x.1 = mlookup om x.1 := by
        intro x hx
        apply mlookup_merase_ne
        intro hh
        exact he1 (hh ▸ List.mem_map.mpr ⟨x, hx, rfl⟩)
      rw [diffStep_some hl, addedOf_cons_some hl, changedOf_cons_some hl,
        removeKeys_cons_some]
      by_cases hc : (e.2.Price != o.Price || e.2.Quantity != o.Quantity) = true
      · rw [if_pos hc, if_pos hc, ih _ _ hnt, addedOf_congr hagree, changedOf_congr hagree]
        simp
      · rw [if_neg hc, if_neg hc, ih _ _ hnt, addedOf_congr hagree, changedOf_congr hagree]
        simp

theorem detectChanges_eq (oldProducts newProducts : List Product) :
    detectChanges oldProducts newProducts =
      { Added := addedOf (buildMap oldProducts) (buildMap newProducts),
        Removed := (removeKeys (buildMap oldProducts) (buildMap newProducts)).map
          (fun e => e.2),
        Changed := changedOf (buildMap oldProducts) (buildMap newProducts) } := by
  unfold detectChanges
  rw [diffFold _ _ _ (buildMap_keys_nodup newProducts)]
  simp

/-! ## Membership characterisation of the delta lists -/

theorem mem_added_iff {old new : List Product} {p : Product} :
    p ∈ (detectChanges old new).Added ↔
      lastOcc new p.Model = some p ∧ lastOcc old p.Model = none := by
  rw [detectChanges_eq]
  simp only [addedOf, List.mem_map, List.mem_filter]
  constructor
  · rintro ⟨e, ⟨heM, hnone⟩, rfl⟩
    have hek : e.1 = e.2.Model := buildMap_entry heM
    have h1 : lastOcc new e.1 = some e.2 := mem_buildMap_iff.mp heM
    have h2 : lastOcc old e.1 = none := by
      rw [← mlookup_buildMap]
      exact Option.isNone_iff_eq_none.mp hnone
    exact ⟨hek ▸ h1, hek ▸ h2⟩
  · rintro ⟨h1, h2⟩
    refine ⟨(p.Model, p), ⟨mem_buildMap_iff.mpr h1, ?_⟩, rfl⟩
    rw [mlookup_buildMap]
    simp [h2]

theorem mem_removed_iff {old new : List Product} {p : Product} :
    p ∈ (detectChanges old new).Removed ↔
      lastOcc old p.Model = some p ∧ lastOcc new p.Model = none := by
  rw [detectChanges_eq]
  simp only [removeKeys, List.mem_map, List.mem_filter]
  constructor
  · rintro ⟨e, ⟨heM, hnot⟩, rfl⟩
    have hek : e.1 = e.2.Model := buildMap_entry heM
    have h1 : lastOcc old e.1 = some e.2 := mem_buildMap_iff.mp heM
    have h2 : lastOcc new e.1 = none := by
      rw [← mlookup_buildMap, mlookup_eq_none_iff]
      intro hmem
      rw [← any_key_iff] at hmem
      simp [hmem] at hnot
    exact ⟨hek ▸ h1, hek ▸ h2⟩
  · rintro ⟨h1, h2⟩
    refine ⟨(p.Model, p), ⟨mem_buildMap_iff.mpr h1, ?_⟩, rfl⟩
    have hnm : p.Model ∉ mkeys (buildMap new) := by
      rw [← mlookup_eq_none_iff, mlookup_buildMap]
      exact h2
    cases hb : (buildMap new).any (fun e2 => e2.1 == (p.Model, p).1) with
    | true => exact absurd ((any_key_iff _ _).mp hb) hnm
    | false => simp

theorem mem_changed_iff {old new : List Product} {ci : ChangeInfo} :
    ci ∈ (detectChanges old new).Changed ↔
      lastOcc old ci.New.Model = some ci.Old ∧ lastOcc new ci.New.Model = some ci.New ∧
        (ci.New.Price ≠ ci.Old.Price ∨ ci.New.Quantity ≠ ci.Old.Quantity) := by
  rw [detectChanges_eq]
  simp only [changedOf, List.mem_filterMap]
  constructor
  · rintro ⟨e, heM, hf⟩
    have hek : e.1 = e.2.Model := buildMap_entry heM
    have h2 : lastOcc new e.1 = some e.2 := mem_buildMap_iff.mp heM
    cases hl : mlookup (buildMap old) e.1 with
    | none => rw [hl] at hf; simp at hf
    | some o =>
      rw [hl, Option.some_bind] at hf
      by_cases hc : (e.2.Price != o.Price || e.2.Quantity != o.Quantity) = true
      · rw [if_pos hc] at hf
        cases hf
        rw [mlookup_buildMap] at hl
        refine ⟨hek ▸ hl, hek ▸ h2, ?_⟩
        simpa [bne_iff_ne] using hc
      · rw [if_neg hc] at hf
        cases hf
  · rintro ⟨h1, h2, h3⟩
    refine ⟨(ci.New.Model, ci.New), mem_buildMap_iff.mpr h2, ?_⟩
    have hl : mlookup (buildMap old) (ci.New.Model, ci.New).1 = some ci.Old := by
      rw [mlookup_buildMap]
      exact h1
    rw [hl, Option.some_bind]
    have hc : ((ci.New.Price != ci.Old.Price || ci.New.Quantity != ci.Old.Quantity)) = true := by
      simpa [bne_iff_ne] using h3
    rw [if_pos hc]

theorem added_models_iff {old new : List Product} {m : String} :
    m ∈ models (detectChanges old new).Added ↔ m ∈ models new ∧ m ∉ models old := by
  constructor
  · intro hm
    obtain ⟨p, hp, rfl⟩ := List.mem_map.mp hm
    obtain ⟨h1, h2⟩ := mem_added_iff.mp hp
    refine ⟨(lastOcc_isSome_iff _ _).mp (by simp [h1]), (lastOcc_eq_none_iff _ _).mp h2⟩
  · rintro ⟨h1, h2⟩
    obtain ⟨p, hp⟩ := (mem_models_iff_lastOcc _ _).mp h1
    have hpm : p.Model = m := lastOcc_some_model hp
    exact List.mem_map.mpr ⟨p, mem_added_iff.mpr
      ⟨by rw [hpm]; exact hp, by rw [hpm]; exact (lastOcc_eq_none_iff _ _).mpr h2⟩, hpm⟩

theorem removed_models_iff {old new : List Product} {m : String} :
    m ∈ models (detectChanges old new).Removed ↔ m ∈ models old ∧ m ∉ models new := by
  constructor
  · intro hm
    obtain ⟨p, hp, rfl⟩ := List.mem_map.mp hm
    obtain ⟨h1, h2⟩ := mem_removed_iff.mp hp
    refine ⟨(lastOcc_isSome_iff _ _).mp (by simp [h1]), (lastOcc_eq_none_iff _ _).mp h2⟩
  · rintro ⟨h1, h2⟩
    obtain ⟨p, hp⟩ := (mem_models_iff_lastOcc _ _).mp h1
    have hpm : p.Model = m := lastOcc_some_model hp
    exact List.mem_map.mpr ⟨p, mem_removed_iff.mpr
      ⟨by rw [hpm]; exact hp, by rw [hpm]; exact (lastOcc_eq_none_iff _ _).mpr h2⟩, hpm⟩

theorem changed_models_iff {old new : List Product} {m : String} :
    m ∈ (detectChanges old new).Changed.map (fun ci => ci.New.Model) ↔
      ∃ o n, lastOcc old m = some o ∧ lastOcc new m = some n ∧
        (n.Price ≠ o.Price ∨ n.Quantity ≠ o.Quantity) := by
  constructor
  · intro hm
    obtain ⟨ci, hci, rfl⟩ := List.mem_map.mp hm
    obtain ⟨h1, h2, h3⟩ := mem_changed_iff.mp hci
    exact ⟨ci.Old, ci.New, h1, h2, h3⟩
  · rintro ⟨o, n, h1, h2, h3⟩
    have hn : n.Model = m := lastOcc_some_model h2
    exact List.mem_map.mpr ⟨⟨o, n⟩, mem_changed_iff.mpr
      ⟨by rw [hn]; exact h1, by rw [hn]; exact h2, h3⟩, hn⟩

/-! ## Claim theorems about the diff -/

/-- C3: `detectChanges` classifies an identifier as added exactly when it is
present in the new collection and absent from the old one, as removed
exactly when present in old and absent from new, and emits a changed
`(old, new)` pair exactly when the identifier is present in both (as the
last occurrences in each) and the price or the quantity differs — a pair
equal on price and quantity is omitted even if type or image URL differ.
Empty old collection makes every new identifier added, empty new collection
makes every old identifier removed, and identical collections give the
empty delta. -/
theorem C3_diff_classification :
    (∀ (old new : List Product) (m : String),
      m ∈ models (detectChanges old new).Added ↔ m ∈ models new ∧ m ∉ models old) ∧
    (∀ (old new : List Product) (ci : ChangeInfo),
      ci ∈ (detectChanges old new).Changed ↔
        lastOcc old ci.New.Model = some ci.Old ∧ lastOcc new ci.New.Model = some ci.New ∧
          (ci.New.Price ≠ ci.Old.Price ∨ ci.New.Quantity ≠ ci.Old.Quantity)) ∧
    (∀ (old new : List Product) (m : String),
      m ∈ models (detectChanges old new).Removed ↔ m ∈ models old ∧ m ∉ models new) ∧
    (∀ new : List Product,
      (detectChanges [] new).Removed = [] ∧ (detectChanges [] new).Changed = [] ∧
        ∀ m, m ∈ models (detectChanges [] new).Added ↔ m ∈ models new) ∧
    (∀ old : List Product,
      (detectChanges old []).Added = [] ∧ (detectChanges old []).Changed = [] ∧
        ∀ m, m ∈ models (detectChanges old []).Removed ↔ m ∈ models old) ∧
    (∀ l : List Product, detectChanges l l = ⟨[], [], []⟩) := by
  refine ⟨fun old new m => added_models_iff, fun old new ci => mem_changed_iff,
    fun old new m => removed_models_iff, ?_, ?_, ?_⟩
  · intro new
    refine ⟨List.eq_nil_iff_forall_not_mem.mpr ?_, List.eq_nil_iff_forall_not_mem.mpr ?_, ?_⟩
    · intro p hp
      have h := (mem_removed_iff.mp hp).1
      simp [lastOcc] at h
    · intro ci hci
      have h := (mem_changed_iff.mp hci).1
      simp [lastOcc] at h
    · intro m
      rw [added_models_iff]
      simp [models]
  · intro old
    refine ⟨List.eq_nil_iff_forall_not_mem.mpr ?_, List.eq_nil_iff_forall_not_mem.mpr ?_, ?_⟩
    · intro p hp
      have h := (mem_added_iff.mp hp).1
      simp [lastOcc] at h
    · intro ci hci
      have h := (mem_changed_iff.mp hci).2.1
      simp [lastOcc] at h
    · intro m
      rw [removed_models_iff]
      simp [models]
  · intro l
    have hA : (detectChanges l l).Added = [] := by
      refine List.eq_nil_iff_forall_not_mem.mpr ?_
      intro p hp
      obtain ⟨h1, h2⟩ := mem_added_iff.mp hp
      simp [h1] at h2
    have hR : (detectChanges l l).Removed = [] := by
      refine List.eq_nil_iff_forall_not_mem.mpr ?_
      intro p hp
      obtain ⟨h1, h2⟩ := mem_removed_iff.mp hp
      simp [h1] at h2
    have hC : (detectChanges l l).Changed = [] := by
      refine List.eq_nil_iff_forall_not_mem.mpr ?_
      intro ci hci
      obtain ⟨h1, h2, h3⟩ := mem_changed_iff.mp hci
      have he : ci.Old = ci.New := by
        have h12 := h1.symm.trans h2
        injection h12
      rcases h3 with h3 | h3
      · exact h3 (by rw [he])
      · exact h3 (by rw [he])
    conv_lhs => rw [show detectChanges l l =
      ⟨(detectChanges l l).Added, (detectChanges l l).Removed,
        (detectChanges l l).Changed⟩ from rfl]
    rw [hA, hR, hC]

/-- C4: every identifier occurring in old or new is classified into exactly
one of added / removed / changed / unchanged, and the three delta lists are
pairwise disjoint in identifiers. -/
theorem C4_partition_property : ∀ (old new : List Product) (m : String),
    m ∈ models new ∨ m ∈ models old →
    ((m ∈ models (detectChanges old new).Added ∨
      m ∈ models (detectChanges old new).Removed ∨
      m ∈ (detectChanges old new).Changed.map (fun ci => ci.New.Model) ∨
      (m ∈ models new ∧ m ∈ models old ∧
        ∀ o n, lastOcc old m = some o → lastOcc new m = some n →
          n.Price = o.Price ∧ n.Quantity = o.Quantity)) ∧
     ¬(m ∈ models (detectChanges old new).Added ∧
       m ∈ models (detectChanges old new).Removed) ∧
     ¬(m ∈ models (detectChanges old new).Added ∧
       m ∈ (detectChanges old new).Changed.map (fun ci => ci.New.Model)) ∧
     ¬(m ∈ models (detectChanges old new).Added ∧ m ∈ models new ∧ m ∈ models old ∧
       ∀ o n, lastOcc old m = some o → lastOcc new m = some n →
         n.Price = o.Price ∧ n.Quantity = o.Quantity) ∧
     ¬(m ∈ models (detectChanges old new).Removed ∧
       m ∈ (detectChanges old new).Changed.map (fun ci => ci.New.Model)) ∧
     ¬(m ∈ models (detectChanges old new).Removed ∧ m ∈ models new ∧ m ∈ models old ∧
       ∀ o n, lastOcc old m = some o → lastOcc new m = some n →
         n.Price = o.Price ∧ n.Quantity = o.Quantity) ∧
     ¬(m ∈ (detectChanges old new).Changed.map (fun ci => ci.New.Model) ∧
       m ∈ models new ∧ m ∈ models old ∧
       ∀ o n, lastOcc old m = some o → lastOcc new m = some n →
         n.Price = o.Price ∧ n.Quantity = o.Quantity)) := by
  intro old new m hm
  have hA := @added_models_iff old new m
  have hR := @removed_models_iff old new m
  have hC := @changed_models_iff old new m
  constructor
  · by_cases hn : m ∈ models new
    · by_cases ho : m ∈ models old
      · obtain ⟨o, hoo⟩ := (mem_models_iff_lastOcc old m).mp ho
        obtain ⟨n, hnn⟩ := (mem_models_iff_lastOcc new m).mp hn
        by_cases hpq : n.Price = o.Price ∧ n.Quantity = o.Quantity
        · refine Or.inr (Or.inr (Or.inr ⟨hn, ho, ?_⟩))
          intro o' n' ho' hn'
          rw [hoo] at ho'
          rw [hnn] at hn'
          cases ho'
          cases hn'
          exact hpq
        · refine Or.inr (Or.inr (Or.inl (hC.mpr ⟨o, n, hoo, hnn, ?_⟩)))
          rcases not_and_or.mp hpq with h | h
          · exact Or.inl h
          · exact Or.inr h
      · exact Or.inl (hA.mpr ⟨hn, ho⟩)
    · by_cases ho : m ∈ models old
      · exact Or.inr (Or.inl (hR.mpr ⟨ho, hn⟩))
      · rcases hm with h | h
        · exact absurd h hn
        · exact absurd h ho
  · refine ⟨?_, ?_, ?_, ?_, ?_, ?_⟩
    · rintro ⟨ha, hr⟩
      exact (hA.mp ha).2 (hR.mp hr).1
    · rintro ⟨ha, hc⟩
      obtain ⟨o, n, ho', hn', hd⟩ := hC.mp hc
      exact (hA.mp ha).2 ((mem_models_iff_lastOcc old m).mpr ⟨o, ho'⟩)
    · rintro ⟨ha, hu⟩
      exact (hA.mp ha).2 hu.2.1
    · rintro ⟨hr, hc⟩
      obtain ⟨o, n, ho', hn', hd⟩ := hC.mp hc
      exact (hR.mp hr).2 ((mem_models_iff_lastOcc new m).mpr ⟨n, hn'⟩)
    · rintro ⟨hr, hu⟩
      exact (hR.mp hr).2 hu.1
    · rintro ⟨hc, hu⟩
      obtain ⟨o, n, ho', hn', hd⟩ := hC.mp hc
      obtain ⟨heq1, heq2⟩ := hu.2.2 o n ho' hn'
      rcases hd with h | h
      · exact h heq1
      · exact h heq2

/-- Witness for C4 at a concrete input: old `[pB2]`, new `[pC3]`,
identifier `C3` is classified (it lands in `Added`). -/
theorem C4_partition_property_witness :
    "C3" ∈ models (detectChanges [pB2] [pC3]).Added ∨
    "C3" ∈ models (detectChanges [pB2] [pC3]).Removed ∨
    "C3" ∈ (detectChanges [pB2] [pC3]).Changed.map (fun ci => ci.New.Model) ∨
    ("C3" ∈ models [pC3] ∧ "C3" ∈ models [pB2] ∧
      ∀ o n, lastOcc [pB2] "C3" = some o → lastOcc [pC3] "C3" = some n →
        n.Price = o.Price ∧ n.Quantity = o.Quantity) :=
  (C4_partition_property [pB2] [pC3] "C3" (by decide)).1

/-- C10: every changed pair agrees on the identifier and consists of the
last occurrences of that identifier in the old and the new collection;
added products come from the new collection, removed products from the old
one. -/
theorem C10_changed_pair_invariants : ∀ (old new : List Product),
    (∀ ci ∈ (detectChanges old new).Changed,
      ci.Old.Model = ci.New.Model ∧
      lastOcc old ci.New.Model = some ci.Old ∧ lastOcc new ci.New.Model = some ci.New ∧
      ci.Old ∈ old ∧ ci.New ∈ new) ∧
    (∀ p ∈ (detectChanges old new).Added, p.Model ∈ models new ∧ p ∈ new) ∧
    (∀ p ∈ (detectChanges old new).Removed, p.Model ∈ models old ∧ p ∈ old) := by
  intro old new
  refine ⟨?_, ?_, ?_⟩
  · intro ci hci
    obtain ⟨h1, h2, h3⟩ := mem_changed_iff.mp hci
    have hm := lastOcc_some_model h1
    exact ⟨hm, h1, h2, lastOcc_some_mem h1, lastOcc_some_mem h2⟩
  · intro p hp
    obtain ⟨h1, h2⟩ := mem_added_iff.mp hp
    exact ⟨(lastOcc_isSome_iff _ _).mp (by simp [h1]), lastOcc_some_mem h1⟩
  · intro p hp
    obtain ⟨h1, h2⟩ := mem_removed_iff.mp hp
    exact ⟨(lastOcc_isSome_iff _ _).mp (by simp [h1]), lastOcc_some_mem h1⟩

/-- Witness for C10 at a concrete input: the changed pair produced by a
price change of product `A1`. -/
theorem C10_changed_pair_invariants_witness :
    ChangeInfo.mk pA1 pA1' ∈ (detectChanges [pA1] [pA1']).Changed ∧
    (ChangeInfo.mk pA1 pA1').Old.Model = (ChangeInfo.mk pA1 pA1').New.Model ∧
    (ChangeInfo.mk pA1 pA1').Old ∈ [pA1] :=
  ⟨by decide,
   ((C10_changed_pair_invariants [pA1] [pA1']).1 (ChangeInfo.mk pA1 pA1') (by decide)).1,
   ((C10_changed_pair_invariants [pA1] [pA1']).1 (ChangeInfo.mk pA1 pA1') (by decide)).2.2.2.1⟩

/-! ## Repository lemmas -/

theorem insertLoop_ok_append (f : FailSpec) :
    ∀ (ps tbl tbl' : List Product), insertLoop f tbl ps = .ok tbl' → tbl' = tbl ++ ps := by
  intro ps
  induction ps with
  | nil =>
    intro tbl tbl' h
    unfold insertLoop at h
    cases h
    simp
  | cons p t ih =>
    intro tbl tbl' h
    unfold insertLoop at h
    by_cases h1 : f.insertFailOn.contains p.Model = true
    · rw [if_pos h1] at h
      exact Except.noConfusion h
    · rw [if_neg h1] at h
      by_cases h2 : tbl.any (fun q => q.Model == p.Model) = true
      · rw [if_pos h2] at h
        exact Except.noConfusion h
      · rw [if_neg h2] at h
        rw [ih _ _ h]
        simp

theorem insertLoop_ok_nodup (f : FailSpec) :
    ∀ (ps tbl tbl' : List Product), insertLoop f tbl ps = .ok tbl' →
      (models ps).Nodup ∧ ∀ p ∈ ps, p.Model ∉ models tbl := by
  intro ps
  induction ps with
  | nil =>
    intro tbl tbl' _
    exact ⟨List.nodup_nil, by simp⟩
  | cons p t ih =>
    intro tbl tbl' h
    unfold insertLoop at h
    by_cases h1 : f.insertFailOn.contains p.Model = true
    · rw [if_pos h1] at h
      exact Except.noConfusion h
    · rw [if_neg h1] at h
      by_cases h2 : tbl.any (fun q => q.Model == p.Model) = true
      · rw [if_pos h2] at h
        exact Except.noConfusion h
      · rw [if_neg h2] at h
        have h2' : tbl.any (fun q => q.Model == p.Model) = false := by simpa using h2
        obtain ⟨hnd, hall⟩ := ih _ _ h
        have hmt : ∀ q ∈ t, q.Model ∉ models (tbl ++ [p]) := hall
        have hptbl : p.Model ∉ models tbl := by
          intro hmem
          obtain ⟨q, hq, hqm⟩ := List.mem_map.mp hmem
          have : tbl.any (fun r => r.Model == p.Model) = true :=
            List.any_eq_true.mpr ⟨q, hq, by simp [hqm]⟩
          simp [this] at h2'
        refine ⟨List.nodup_cons.mpr ⟨?_, hnd⟩, ?_⟩
        · intro hmem
          obtain ⟨q, hq, hqm⟩ := List.mem_map.mp hmem
          have := hmt q hq
          simp only [models, List.map_append, List.map_cons, List.map_nil,
            List.mem_append, List.mem_singleton] at this
          exact this (Or.inr hqm)
        · intro q hq
          rcases List.mem_cons.mp hq with rfl | hqt
          · exact hptbl
          · intro hmem
            have := hmt q hqt
            simp only [models, List.map_append, List.map_cons, List.map_nil,
              List.mem_append, List.mem_singleton] at this
            exact this (Or.inl (by simpa [models] using hmem))

theorem insertLoop_err_of_failOn (f : FailSpec) :
    ∀ (ps tbl : List Product), (∃ p ∈ ps, f.insertFailOn.contains p.Model = true) →
      ∃ e, insertLoop f tbl ps = .error e := by
  intro ps
  induction ps with
  | nil =>
    intro tbl h
    obtain ⟨p, hp, _⟩ := h
    cases hp
  | cons q t ih =>
    intro tbl h
    unfold insertLoop
    by_cases h1 : f.insertFailOn.contains q.Model = true
    · exact ⟨.insertFail q.Model, by rw [if_pos h1]⟩
    · rw [if_neg h1]
      by_cases h2 : tbl.any (fun r => r.Model == q.Model) = true
      · exact ⟨.insertFail q.Model, by rw [if_pos h2]⟩
      · rw [if_neg h2]
        obtain ⟨p, hp, hc⟩ := h
        rcases List.mem_cons.mp hp with rfl | hpt
        · exact absurd hc h1
        · exact ih (tbl ++ [q]) ⟨p, hpt, hc⟩

theorem updateState_err_db (db : DB) (s : State) (f : FailSpec)
    (h : (UpdateState db s f).1.isSome) : (UpdateState db s f).2 = db := by
  unfold UpdateState at h ⊢
  by_cases h1 : f.beginTxFail = true
  · rw [if_pos h1]
  · rw [if_neg h1] at h ⊢
    by_cases h2 : f.hashFail = true
    · rw [if_pos h2]
    · rw [if_neg h2] at h ⊢
      by_cases h3 : f.deleteFail = true
      · rw [if_pos h3]
      · rw [if_neg h3] at h ⊢
        by_cases h4 : f.prepareFail = true
        · rw [if_pos h4]
        · rw [if_neg h4] at h ⊢
          cases hL : insertLoop f [] s.Products with
          | error e => rfl
          | ok tbl =>
            rw [hL] at h
            by_cases h5 : f.commitFail = true
            · simp [h5]
            · simp [h5] at h

theorem updateState_ok_shape (db : DB) (s : State) (f : FailSpec)
    (h : (UpdateState db s f).1 = none) :
    (UpdateState db s f).2 = ⟨some s.PageHash, s.Products⟩ := by
  unfold UpdateState at h ⊢
  by_cases h1 : f.beginTxFail = true
  · rw [if_pos h1] at h
    simp at h
  · rw [if_neg h1] at h ⊢
    by_cases h2 : f.hashFail = true
    · rw [if_pos h2] at h
      simp at h
    · rw [if_neg h2] at h ⊢
      by_cases h3 : f.deleteFail = true
      · rw [if_pos h3] at h
        simp at h
      · rw [if_neg h3] at h ⊢
        by_cases h4 : f.prepareFail = true
        · rw [if_pos h4] at h
          simp at h
        · rw [if_neg h4] at h ⊢
          cases hL : insertLoop f [] s.Products with
          | error e =>
            rw [hL] at h
            simp at h
          | ok tbl =>
            rw [hL] at h
            by_cases h5 : f.commitFail = true
            · simp [h5] at h
            · have htbl := insertLoop_ok_append f s.Products [] tbl hL
              simp only [List.nil_append] at htbl
              simp [h5, htbl]

theorem parseTableResponse_go_eq (rows : List (List String)) :
    ∀ acc : List Product,
      rows.foldl
        (fun products cells =>
          match parseRow cells with
          | some p => products ++ [p]
          | none => products) acc = acc ++ rows.filterMap parseRow := by
  induction rows with
  | nil => intro acc; simp
  | cons r t ih =>
    intro acc
    simp only [List.foldl_cons, List.filterMap_cons]
    cases hr : parseRow r with
    | none => rw [ih]
    | some p =>
      rw [ih]
      simp

/-- The extractor appends one product per parseable row in input order and
never merges or drops duplicates. -/
theorem parseTableResponse_eq_filterMap (rows : List (List String)) :
    parseTableResponse rows = rows.filterMap parseRow := by
  unfold parseTableResponse
  rw [parseTableResponse_go_eq]
  simp

/-! ## Claim theorems about the repository and the extractor -/

/-- C1: whenever any step of the snapshot replace fails (beginning the
transaction, writing the fingerprint, clearing the table, preparing the
insert, inserting a record, committing), `UpdateState` reports the error of
the first failing step and the visible database — fingerprint and record
collection together — is exactly what it was, so a subsequent `GetState`
reads the previous snapshot and no intermediate state is observable. -/
theorem C1_replace_atomicity : ∀ (db : DB) (s : State) (f : FailSpec),
    ((UpdateState db s f).1.isSome →
      (UpdateState db s f).2 = db ∧
      ∀ rf, GetState (UpdateState db s f).2 rf = GetState db rf) ∧
    (f.beginTxFail = true → (UpdateState db s f).1 = some UpdErr.beginTxFail) ∧
    (f.beginTxFail = false → f.hashFail = true →
      (UpdateState db s f).1 = some UpdErr.updateHashFail) ∧
    (f.beginTxFail = false → f.hashFail = false → f.deleteFail = true →
      (UpdateState db s f).1 = some UpdErr.deleteProductsFail) ∧
    (f.beginTxFail = false → f.hashFail = false → f.deleteFail = false →
      f.prepareFail = true → (UpdateState db s f).1 = some UpdErr.prepareFail) ∧
    ((∃ p ∈ s.Products, f.insertFailOn.contains p.Model = true) →
      f.beginTxFail = false → f.hashFail = false → f.deleteFail = false →
      f.prepareFail = false → (UpdateState db s f).1.isSome) ∧
    (f.commitFail = true → f.beginTxFail = false → f.hashFail = false →
      f.deleteFail = false → f.prepareFail = false → (UpdateState db s f).1.isSome) := by
  intro db s f
  refine ⟨?_, ?_, ?_, ?_, ?_, ?_, ?_⟩
  · intro h
    have hdb := updateState_err_db db s f h
    exact ⟨hdb, fun rf => by rw [hdb]⟩
  · intro h1
    unfold UpdateState
    rw [if_pos h1]
  · intro h1 h2
    unfold UpdateState
    rw [if_neg (by simp [h1]), if_pos h2]
  · intro h1 h2 h3
    unfold UpdateState
    rw [if_neg (by simp [h1]), if_neg (by simp [h2]), if_pos h3]
  · intro h1 h2 h3 h4
    unfold UpdateState
    rw [if_neg (by simp [h1]), if_neg (by simp [h2]), if_neg (by simp [h3]), if_pos h4]
  · intro hex h1 h2 h3 h4
    unfold UpdateState
    rw [if_neg (by simp [h1]), if_neg (by simp [h2]), if_neg (by simp [h3]),
      if_neg (by simp [h4])]
    obtain ⟨e, he⟩ := insertLoop_err_of_failOn f s.Products [] hex
    rw [he]
    rfl
  · intro h5 h1 h2 h3 h4
    unfold UpdateState
    rw [if_neg (by simp [h1]), if_neg (by simp [h2]), if_neg (by simp [h3]),
      if_neg (by simp [h4])]
    cases hL : insertLoop f [] s.Products with
    | error e => rfl
    | ok tbl => simp [h5]

/-- Witness for C1: a transaction-begin failure on a concrete store returns
that error and leaves the store unchanged. -/
theorem C1_replace_atomicity_witness :
    (UpdateState ⟨some "h", [pA1]⟩ ⟨"h2", [pB2]⟩ ⟨true, false, false, false, [], false⟩).1 =
      some UpdErr.beginTxFail ∧
    (UpdateState ⟨some "h", [pA1]⟩ ⟨"h2", [pB2]⟩ ⟨true, false, false, false, [], false⟩).2 =
      ⟨some "h", [pA1]⟩ :=
  ⟨(C1_replace_atomicity ⟨some "h", [pA1]⟩ ⟨"h2", [pB2]⟩
      ⟨true, false, false, false, [], false⟩).2.1 rfl,
   ((C1_replace_atomicity ⟨some "h", [pA1]⟩ ⟨"h2", [pB2]⟩
      ⟨true, false, false, false, [], false⟩).1 (by decide)).1⟩

/-- C6: on a never-written store, `GetState` returns the distinguished
`ErrStateNotFound`; that value differs from every other read error; and a
store holding a snapshot with an empty record collection reads back
successfully with its fingerprint and no records (as does any stored
snapshot), while a row-scan failure surfaces as an error distinct from
NotFound. -/
theorem C6_notfound_distinguished :
    GetState DB.init noReadFail = .error RepoErr.stateNotFound ∧
    (RepoErr.stateNotFound ≠ RepoErr.hashQueryFail ∧
     RepoErr.stateNotFound ≠ RepoErr.productsQueryFail ∧
     RepoErr.stateNotFound ≠ RepoErr.scanRowFail ∧
     RepoErr.stateNotFound ≠ RepoErr.rowsIterFail) ∧
    (∀ h : String, GetState ⟨some h, []⟩ noReadFail = .ok ⟨h, []⟩) ∧
    (∀ (h : String) (ps : List Product), GetState ⟨some h, ps⟩ noReadFail = .ok ⟨h, ps⟩) ∧
    (∀ (h : String) (p : Product) (ps : List Product),
      GetState ⟨some h, p :: ps⟩ ⟨false, false, true, false⟩ = .error RepoErr.scanRowFail) := by
  refine ⟨rfl, by decide, fun h => rfl, fun h ps => rfl, fun h p ps => rfl⟩

/-- Witness for C6: the two distinguished read outcomes at concrete
stores. -/
theorem C6_notfound_distinguished_witness :
    GetState DB.init noReadFail = .error RepoErr.stateNotFound ∧
    GetState ⟨some "h", []⟩ noReadFail = .ok ⟨"h", []⟩ :=
  ⟨C6_notfound_distinguished.1, C6_notfound_distinguished.2.2.1 "h"⟩

/-- C7: replace is a total overwrite: a successful `UpdateState s` leaves
the store holding exactly `s` — its fingerprint and its record collection —
and a subsequent `GetState` returns exactly `s`; nothing of the prior state
survives. -/
theorem C7_replace_total_overwrite : ∀ (db : DB) (s : State) (f : FailSpec),
    (UpdateState db s f).1 = none →
      (UpdateState db s f).2 = ⟨some s.PageHash, s.Products⟩ ∧
      GetState (UpdateState db s f).2 noReadFail = .ok ⟨s.PageHash, s.Products⟩ := by
  intro db s f h
  have hdb := updateState_ok_shape db s f h
  refine ⟨hdb, ?_⟩
  rw [hdb]
  rfl

/-- Witness for C7: overwriting a store that held `⟨"h", [pA1]⟩` with
`⟨"h2", [pB2, pC3]⟩` succeeds and reads back exactly the new snapshot. -/
theorem C7_replace_total_overwrite_witness :
    GetState (UpdateState ⟨some "h", [pA1]⟩ ⟨"h2", [pB2, pC3]⟩ noUpdFail).2 noReadFail =
      .ok ⟨"h2", [pB2, pC3]⟩ :=
  (C7_replace_total_overwrite ⟨some "h", [pA1]⟩ ⟨"h2", [pB2, pC3]⟩ noUpdFail (by decide)).2

/-- C8 counterexample: extraction does not deduplicate identifiers — two
five-cell rows with the same model yield two products with the same model —
and persisting such a collection fails on the primary key instead of
keeping the last occurrence. -/
theorem C8_counterexample :
    parseTableResponse [["A", "T", "1", "u", "10"], ["A", "T", "2", "u", "20"]] =
      [⟨"A", "T", "1", "u", "10"⟩, ⟨"A", "T", "2", "u", "20"⟩] ∧
    ¬ (models (parseTableResponse
        [["A", "T", "1", "u", "10"], ["A", "T", "2", "u", "20"]])).Nodup ∧
    (UpdateState DB.init
      ⟨"h", parseTableResponse [["A", "T", "1", "u", "10"], ["A", "T", "2", "u", "20"]]⟩
      noUpdFail).1 = some (UpdErr.insertFail "A") := by
  refine ⟨by decide, by decide, by decide⟩

/-- C8 (amended): the identifier-keyed maps built by the diff are
last-write-wins — looking up a key yields the last occurrence with that
identifier, so the diff behaves as if only the last occurrence existed —
but extraction performs no deduplication (it emits one product per
five-cell row, in order), and persisting a collection that repeats an
identifier makes `UpdateState` fail at the insert step (`model` is the
products table's primary key) rather than keeping the last occurrence. -/
theorem C8_lastwritewins_amended :
    (∀ (ps : List Product) (k : String), mlookup (buildMap ps) k = lastOcc ps k) ∧
    (∀ rows : List (List String), parseTableResponse rows = rows.filterMap parseRow) ∧
    (∀ (db : DB) (s : State), ¬ (models s.Products).Nodup →
      (UpdateState db s noUpdFail).1.isSome) := by
  refine ⟨mlookup_buildMap, parseTableResponse_eq_filterMap, ?_⟩
  intro db s hnd
  unfold UpdateState
  rw [if_neg (by simp [noUpdFail]), if_neg (by simp [noUpdFail]),
    if_neg (by simp [noUpdFail]), if_neg (by simp [noUpdFail])]
  cases hL : insertLoop noUpdFail [] s.Products with
  | error e => rfl
  | ok tbl => exact absurd (insertLoop_ok_nodup noUpdFail s.Products [] tbl hL).1 hnd

/-- Witness for C8 (amended): persisting a collection that repeats the
identifier `A1` fails. -/
theorem C8_lastwritewins_amended_witness :
    (UpdateState DB.init ⟨"h", [pA1, pA1']⟩ noUpdFail).1.isSome :=
  C8_lastwritewins_amended.2.2 DB.init ⟨"h", [pA1, pA1']⟩ (by decide)

/-! ## Checker lemmas -/

theorem getState_ok_inv (db : DB) (f : ReadFail) (st : State)
    (h : GetState db f = .ok st) :
    db.page_state = some st.PageHash ∧ st.Products = db.products := by
  unfold GetState at h
  by_cases h1 : f.hashFail = true
  · rw [if_pos h1] at h
    exact Except.noConfusion h
  · rw [if_neg h1] at h
    cases hp : db.page_state with
    | none =>
      rw [hp] at h
      exact Except.noConfusion h
    | some ph =>
      rw [hp] at h
      have h' : (if f.productsFail = true then
            (Except.error RepoErr.productsQueryFail : Except RepoErr State)
          else if (f.scanFail && !db.products.isEmpty) = true then
            Except.error RepoErr.scanRowFail
          else if f.rowsFail = true then Except.error RepoErr.rowsIterFail
          else Except.ok ⟨ph, db.products⟩) = Except.ok st := h
      by_cases h2 : f.productsFail = true
      · rw [if_pos h2] at h'
        exact Except.noConfusion h'
      · rw [if_neg h2] at h'
        by_cases h3 : (f.scanFail && !db.products.isEmpty) = true
        · rw [if_pos h3] at h'
          exact Except.noConfusion h'
        · rw [if_neg h3] at h'
          by_cases h4 : f.rowsFail = true
          · rw [if_pos h4] at h'
            exact Except.noConfusion h'
          · rw [if_neg h4] at h'
            cases h'
            exact ⟨rfl, rfl⟩

/-- Reduce `fullAnalysis` once the parse oracle's answer is known. -/
theorem fullAnalysis_parse_none (env : CheckEnv) (db : DB) (hash : String)
    (olds : List Product) (hp : env.parse = none) :
    fullAnalysis env db hash olds = ⟨.error .parseFail, db, 1, 0, 0⟩ := by
  unfold fullAnalysis
  rw [hp]

theorem fullAnalysis_parse_some (env : CheckEnv) (db : DB) (hash : String)
    (olds ps : List Product) (hp : env.parse = some ps) :
    fullAnalysis env db hash olds =
      match UpdateState db ⟨hash, ps⟩ env.updFail with
      | (some e, db₂) => ⟨.error (.updateStateFail e), db₂, 1, 1, 1⟩
      | (none, db₂) => ⟨.ok (detectChanges olds ps), db₂, 1, 1, 1⟩ := by
  unfold fullAnalysis
  rw [hp]

theorem fullAnalysis_err_db (env : CheckEnv) (db : DB) (hash : String)
    (olds : List Product) :
    ∀ e, (fullAnalysis env db hash olds).result = .error e →
      (fullAnalysis env db hash olds).db = db := by
  intro e h
  cases hp : env.parse with
  | none => rw [fullAnalysis_parse_none env db hash olds hp]
  | some ps =>
    rw [fullAnalysis_parse_some env db hash olds ps hp] at h ⊢
    rcases hu : UpdateState db ⟨hash, ps⟩ env.updFail with ⟨r, db₂⟩
    rw [hu] at h
    cases r with
    | some e' =>
      have hdb := updateState_err_db db ⟨hash, ps⟩ env.updFail (by simp [hu])
      rw [hu] at hdb
      exact hdb
    | none => exact Except.noConfusion h

theorem fullAnalysis_ok_shape (env : CheckEnv) (db : DB) (hash : String)
    (olds : List Product) (d : Changes) :
    (fullAnalysis env db hash olds).result = .ok d →
      ∃ ps, env.parse = some ps ∧ d = detectChanges olds ps ∧
        (fullAnalysis env db hash olds).db = ⟨some hash, ps⟩ ∧
        (fullAnalysis env db hash olds).replaceCalls = 1 := by
  intro h
  cases hp : env.parse with
  | none =>
    rw [fullAnalysis_parse_none env db hash olds hp] at h
    exact Except.noConfusion h
  | some ps =>
    rw [fullAnalysis_parse_some env db hash olds ps hp] at h ⊢
    refine ⟨ps, rfl, ?_⟩
    rcases hu : UpdateState db ⟨hash, ps⟩ env.updFail with ⟨r, db₂⟩
    rw [hu] at h
    cases r with
    | some e' => exact Except.noConfusion h
    | none =>
      have hdb := updateState_ok_shape db ⟨hash, ps⟩ env.updFail (by simp [hu])
      rw [hu] at hdb
      have h' : Except.ok (detectChanges olds ps) = Except.ok d := h
      cases h'
      exact ⟨rfl, hdb, rfl⟩

theorem fullAnalysis_extract_calls (env : CheckEnv) (db : DB) (hash : String)
    (olds : List Product) :
    (fullAnalysis env db hash olds).extractCalls = 1 := by
  cases hp : env.parse with
  | none => rw [fullAnalysis_parse_none env db hash olds hp]
  | some ps =>
    rw [fullAnalysis_parse_some env db hash olds ps hp]
    rcases hu : UpdateState db ⟨hash, ps⟩ env.updFail with ⟨r, db₂⟩
    cases r <;> rfl

/-- Master case split of one `CheckForUpdates` run once the fetch and the
body read have succeeded. -/
theorem checkForUpdates_cases (env : CheckEnv) (db : DB) (B : List Nat)
    (hg : env.getHTMLOk = true) (hb : env.readBody = some B) :
    (∃ st, GetState db env.readFail = .ok st ∧ st.PageHash = calculateHash B ∧
      CheckForUpdates env db = ⟨.ok ⟨[], [], []⟩, db, 0, 0, 0⟩) ∨
    (∃ olds, ((GetState db env.readFail = .error .stateNotFound ∧ olds = []) ∨
        (∃ st, GetState db env.readFail = .ok st ∧ st.PageHash ≠ calculateHash B ∧
          olds = st.Products)) ∧
      CheckForUpdates env db = fullAnalysis env db (calculateHash B) olds) ∨
    (∃ e, GetState db env.readFail = .error e ∧ e ≠ .stateNotFound ∧
      CheckForUpdates env db = ⟨.error (.getStateFail e), db, 0, 0, 0⟩) := by
  have hC : CheckForUpdates env db =
      match GetState db env.readFail with
      | .error .stateNotFound => fullAnalysis env db (calculateHash B) []
      | .error e => ⟨.error (.getStateFail e), db, 0, 0, 0⟩
      | .ok oldState =>
        if oldState.PageHash = calculateHash B then ⟨.ok ⟨[], [], []⟩, db, 0, 0, 0⟩
        else fullAnalysis env db (calculateHash B) oldState.Products := by
    unfold CheckForUpdates
    rw [if_pos hg, hb]
  cases hG : GetState db env.readFail with
  | error re =>
    cases re with
    | stateNotFound =>
      exact Or.inr (Or.inl ⟨[], Or.inl ⟨rfl, rfl⟩, by rw [hC, hG]⟩)
    | hashQueryFail =>
      exact Or.inr (Or.inr ⟨.hashQueryFail, rfl, by decide, by rw [hC, hG]⟩)
    | productsQueryFail =>
      exact Or.inr (Or.inr ⟨.productsQueryFail, rfl, by decide, by rw [hC, hG]⟩)
    | scanRowFail =>
      exact Or.inr (Or.inr ⟨.scanRowFail, rfl, by decide, by rw [hC, hG]⟩)
    | rowsIterFail =>
      exact Or.inr (Or.inr ⟨.rowsIterFail, rfl, by decide, by rw [hC, hG]⟩)
  | ok st =>
    have hC2 : CheckForUpdates env db =
        if st.PageHash = calculateHash B then
          (⟨.ok ⟨[], [], []⟩, db, 0, 0, 0⟩ : CheckResult)
        else fullAnalysis env db (calculateHash B) st.Products := by
      rw [hC, hG]
    by_cases hcmp : st.PageHash = calculateHash B
    · exact Or.inl ⟨st, rfl, hcmp, by rw [hC2, if_pos hcmp]⟩
    · exact Or.inr (Or.inl ⟨st.Products, Or.inr ⟨st, rfl, hcmp, rfl⟩,
        by rw [hC2, if_neg hcmp]⟩)

theorem checkForUpdates_err_db (env : CheckEnv) (db : DB) :
    ∀ e, (CheckForUpdates env db).result = .error e → (CheckForUpdates env db).db = db := by
  by_cases hg : env.getHTMLOk = true
  · cases hb : env.readBody with
    | none =>
      intro e h
      unfold CheckForUpdates
      rw [if_pos hg, hb]
    | some B =>
      rcases checkForUpdates_cases env db B hg hb with
        ⟨st, _, _, heq⟩ | ⟨olds, _, heq⟩ | ⟨e', _, _, heq⟩
      · intro e h
        rw [heq] at h
        simp at h
      · intro e h
        rw [heq] at h ⊢
        exact fullAnalysis_err_db env db (calculateHash B) olds e h
      · intro e h
        rw [heq]
  · intro e h
    unfold CheckForUpdates
    rw [if_neg hg]

theorem checkForUpdates_ok_pagehash (env : CheckEnv) (db : DB) (B : List Nat) (d : Changes)
    (hb : env.readBody = some B)
    (hok : (CheckForUpdates env db).result = .ok d) :
    (CheckForUpdates env db).db.page_state = some (calculateHash B) := by
  by_cases hg : env.getHTMLOk = true
  · rcases checkForUpdates_cases env db B hg hb with
      ⟨st, hG, hcmp, heq⟩ | ⟨olds, _, heq⟩ | ⟨e', _, _, heq⟩
    · rw [heq]
      have := (getState_ok_inv db env.readFail st hG).1
      rw [this, hcmp]
    · rw [heq] at hok ⊢
      obtain ⟨ps, _, _, hdb, _⟩ := fullAnalysis_ok_shape env db (calculateHash B) olds d hok
      rw [hdb]
    · rw [heq] at hok
      simp at hok
  · exfalso
    unfold CheckForUpdates at hok
    rw [if_neg hg] at hok
    simp at hok

theorem checkForUpdates_shortcircuit (env : CheckEnv) (db : DB) (B : List Nat)
    (hg : env.getHTMLOk = true) (hb : env.readBody = some B)
    (hrf : env.readFail = noReadFail)
    (hdb : db.page_state = some (calculateHash B)) :
    CheckForUpdates env db = ⟨.ok ⟨[], [], []⟩, db, 0, 0, 0⟩ := by
  have hG : GetState db env.readFail = .ok ⟨calculateHash B, db.products⟩ := by
    rw [hrf]
    obtain ⟨pg, prods⟩ := db
    have hpg : pg = some (calculateHash B) := hdb
    subst hpg
    rfl
  rcases checkForUpdates_cases env db B hg hb with
    ⟨st, hG', hcmp, heq⟩ | ⟨olds, hcase, heq⟩ | ⟨e', hG', hne, heq⟩
  · exact heq
  · exfalso
    rcases hcase with ⟨hG', _⟩ | ⟨st, hG', hne, _⟩
    · rw [hG] at hG'
      exact Except.noConfusion hG'
    · rw [hG] at hG'
      injection hG' with h'
      rw [← h'] at hne
      exact hne rfl
  · rw [hG] at hG'
    exact Except.noConfusion hG'

/-! ## Claim theorems about the checker -/

/-- C2: when a prior snapshot exists and its stored fingerprint equals the
fingerprint of the fetched bytes, `CheckForUpdates` returns an empty delta
without invoking the extractor, the differ or the store's replace, and
leaves the database untouched; consequently a second run on identical bytes
after any successful run short-circuits the same way, with zero replace
calls. -/
theorem C2_fingerprint_short_circuit :
    (∀ (env : CheckEnv) (db : DB) (B : List Nat),
      env.getHTMLOk = true → env.readBody = some B → env.readFail = noReadFail →
      db.page_state = some (calculateHash B) →
      CheckForUpdates env db = ⟨.ok ⟨[], [], []⟩, db, 0, 0, 0⟩) ∧
    (∀ (env1 env2 : CheckEnv) (db : DB) (B : List Nat) (d : Changes),
      env1.readBody = some B → (CheckForUpdates env1 db).result = .ok d →
      env2.getHTMLOk = true → env2.readBody = some B → env2.readFail = noReadFail →
      CheckForUpdates env2 (CheckForUpdates env1 db).db =
        ⟨.ok ⟨[], [], []⟩, (CheckForUpdates env1 db).db, 0, 0, 0⟩) := by
  refine ⟨fun env db B hg hb hrf hdb =>
    checkForUpdates_shortcircuit env db B hg hb hrf hdb, ?_⟩
  intro env1 env2 db B d hb1 hok hg2 hb2 hrf2
  exact checkForUpdates_shortcircuit env2 _ B hg2 hb2 hrf2
    (checkForUpdates_ok_pagehash env1 db B d hb1 hok)

def envC2 : CheckEnv := ⟨true, some [], some [], noReadFail, noUpdFail⟩

/-- Witness for C2: a store primed with the fingerprint of the fetched
bytes short-circuits, and so does a second run after a successful first
run from an empty store. -/
theorem C2_fingerprint_short_circuit_witness :
    CheckForUpdates envC2 ⟨some (calculateHash []), []⟩ =
      ⟨.ok ⟨[], [], []⟩, ⟨some (calculateHash []), []⟩, 0, 0, 0⟩ ∧
    CheckForUpdates envC2 (CheckForUpdates envC2 DB.init).db =
      ⟨.ok ⟨[], [], []⟩, (CheckForUpdates envC2 DB.init).db, 0, 0, 0⟩ :=
  ⟨C2_fingerprint_short_circuit.1 envC2 ⟨some (calculateHash []), []⟩ [] rfl rfl rfl rfl,
   C2_fingerprint_short_circuit.2 envC2 envC2 DB.init [] ⟨[], [], []⟩ rfl (by decide)
     rfl rfl rfl⟩

/-- Any store-read failure other than NotFound aborts the cycle with that
error. -/
theorem checkForUpdates_getStateFail (env : CheckEnv) (db : DB) (B : List Nat)
    (e : RepoErr) (hg : env.getHTMLOk = true) (hb : env.readBody = some B)
    (hG : GetState db env.readFail = .error e) (hne : e ≠ RepoErr.stateNotFound) :
    (CheckForUpdates env db).result = .error (CheckErr.getStateFail e) := by
  rcases checkForUpdates_cases env db B hg hb with
    ⟨st, hG', _, _⟩ | ⟨olds, hcase, heq⟩ | ⟨e', hG', _, heq⟩
  · rw [hG] at hG'
    exact Except.noConfusion hG'
  · exfalso
    rcases hcase with ⟨hG', _⟩ | ⟨st, hG', _, _⟩
    · rw [hG] at hG'
      injection hG' with h'
      exact hne h'
    · rw [hG] at hG'
      exact Except.noConfusion hG'
  · rw [hG] at hG'
    injection hG' with h'
    rw [heq, h']

/-- C5: a failing cycle — fetch failure, body-read failure, any store read
failure other than NotFound (hash query, products query, row scan, rows
iteration), extraction failure, or replace failure — returns an error and
no delta and leaves the persisted state exactly as it was; a successful
cycle either short-circuited (no replace call, store untouched, empty
delta) or fully committed the snapshot it computed and returned exactly the
delta that `detectChanges` produced from the prior records and the newly
extracted ones. -/
theorem C5_cycle_atomicity : ∀ (env : CheckEnv) (db : DB),
    (∀ e, (CheckForUpdates env db).result = .error e →
      (CheckForUpdates env db).db = db) ∧
    (env.getHTMLOk = false →
      (CheckForUpdates env db).result = .error CheckErr.getHTMLFail) ∧
    (env.getHTMLOk = true → env.readBody = none →
      (CheckForUpdates env db).result = .error CheckErr.readBodyFail) ∧
    (∀ B e, env.getHTMLOk = true → env.readBody = some B →
      GetState db env.readFail = .error e → e ≠ RepoErr.stateNotFound →
      (CheckForUpdates env db).result = .error (CheckErr.getStateFail e)) ∧
    (∀ B, env.getHTMLOk = true → env.readBody = some B →
      env.readFail.hashFail = true →
      (CheckForUpdates env db).result =
        .error (CheckErr.getStateFail RepoErr.hashQueryFail)) ∧
    (∀ B h, env.getHTMLOk = true → env.readBody = some B →
      db.page_state = some h → env.readFail.hashFail = false →
      env.readFail.productsFail = true →
      (CheckForUpdates env db).result =
        .error (CheckErr.getStateFail RepoErr.productsQueryFail)) ∧
    (∀ B h p ps, env.getHTMLOk = true → env.readBody = some B →
      db.page_state = some h → db.products = p :: ps →
      env.readFail.hashFail = false → env.readFail.productsFail = false →
      env.readFail.scanFail = true →
      (CheckForUpdates env db).result =
        .error (CheckErr.getStateFail RepoErr.scanRowFail)) ∧
    (∀ B h, env.getHTMLOk = true → env.readBody = some B →
      db.page_state = some h → env.readFail.hashFail = false →
      env.readFail.productsFail = false → env.readFail.scanFail = false →
      env.readFail.rowsFail = true →
      (CheckForUpdates env db).result =
        .error (CheckErr.getStateFail RepoErr.rowsIterFail)) ∧
    (∀ B, env.getHTMLOk = true → env.readBody = some B → env.parse = none →
      (GetState db env.readFail = .error RepoErr.stateNotFound ∨
       (∃ st, GetState db env.readFail = .ok st ∧ st.PageHash ≠ calculateHash B)) →
      (CheckForUpdates env db).result = .error CheckErr.parseFail) ∧
    (∀ B ps e, env.getHTMLOk = true → env.readBody = some B → env.parse = some ps →
      (GetState db env.readFail = .error RepoErr.stateNotFound ∨
       (∃ st, GetState db env.readFail = .ok st ∧ st.PageHash ≠ calculateHash B)) →
      (UpdateState db ⟨calculateHash B, ps⟩ env.updFail).1 = some e →
      (CheckForUpdates env db).result = .error (CheckErr.updateStateFail e)) ∧
    (∀ B d, env.readBody = some B → (CheckForUpdates env db).result = .ok d →
      (((CheckForUpdates env db).replaceCalls = 0 ∧ (CheckForUpdates env db).db = db ∧
         d = ⟨[], [], []⟩) ∨
       (∃ ps olds, env.parse = some ps ∧
         ((GetState db env.readFail = .error RepoErr.stateNotFound ∧ olds = []) ∨
          (∃ st, GetState db env.readFail = .ok st ∧ olds = st.Products)) ∧
         d = detectChanges olds ps ∧
         (CheckForUpdates env db).db = ⟨some (calculateHash B), ps⟩ ∧
         (CheckForUpdates env db).replaceCalls = 1))) := by
  intro env db
  refine ⟨checkForUpdates_err_db env db, ?_, ?_, ?_, ?_, ?_, ?_, ?_, ?_, ?_, ?_⟩
  · intro h
    unfold CheckForUpdates
    rw [if_neg (by simp [h])]
  · intro hg hb
    unfold CheckForUpdates
    rw [if_pos hg, hb]
  · intro B e hg hb hG hne
    exact checkForUpdates_getStateFail env db B e hg hb hG hne
  · intro B hg hb hf
    have hG : GetState db env.readFail = .error .hashQueryFail := by
      unfold GetState
      rw [if_pos hf]
    exact checkForUpdates_getStateFail env db B _ hg hb hG (by decide)
  · intro B h hg hb hp h1 h2
    have hG : GetState db env.readFail = .error .productsQueryFail := by
      unfold GetState
      rw [if_neg (by simp [h1]), hp]
      show (if env.readFail.productsFail = true then
          (Except.error RepoErr.productsQueryFail : Except RepoErr State)
        else if (env.readFail.scanFail && !db.products.isEmpty) = true then
          Except.error RepoErr.scanRowFail
        else if env.readFail.rowsFail = true then Except.error RepoErr.rowsIterFail
        else Except.ok ⟨h, db.products⟩) = Except.error RepoErr.productsQueryFail
      rw [if_pos h2]
    exact checkForUpdates_getStateFail env db B _ hg hb hG (by decide)
  · intro B h p ps hg hb hp hprod h1 h2 h3
    have hG : GetState db env.readFail = .error .scanRowFail := by
      unfold GetState
      rw [if_neg (by simp [h1]), hp]
      show (if env.readFail.productsFail = true then
          (Except.error RepoErr.productsQueryFail : Except RepoErr State)
        else if (env.readFail.scanFail && !db.products.isEmpty) = true then
          Except.error RepoErr.scanRowFail
        else if env.readFail.rowsFail = true then Except.error RepoErr.rowsIterFail
        else Except.ok ⟨h, db.products⟩) = Except.error RepoErr.scanRowFail
      rw [if_neg (by simp [h2]), if_pos (by simp [h3, hprod])]
    exact checkForUpdates_getStateFail env db B _ hg hb hG (by decide)
  · intro B h hg hb hp h1 h2 h3 h4
    have hG : GetState db env.readFail = .error .rowsIterFail := by
      unfold GetState
      rw [if_neg (by simp [h1]), hp]
      show (if env.readFail.productsFail = true then
          (Except.error RepoErr.productsQueryFail : Except RepoErr State)
        else if (env.readFail.scanFail && !db.products.isEmpty) = true then
          Except.error RepoErr.scanRowFail
        else if env.readFail.rowsFail = true then Except.error RepoErr.rowsIterFail
        else Except.ok ⟨h, db.products⟩) = Except.error RepoErr.rowsIterFail
      rw [if_neg (by simp [h2]), if_neg (by simp [h3]), if_pos h4]
    exact checkForUpdates_getStateFail env db B _ hg hb hG (by decide)
  · intro B hg hb hp hfull
    rcases checkForUpdates_cases env db B hg hb with
      ⟨st, hG', hcmp, heq⟩ | ⟨olds, hcase, heq⟩ | ⟨e', hG', hne, heq⟩
    · exfalso
      rcases hfull with hf | ⟨st2, hG2, hne2⟩
      · rw [hG'] at hf
        exact Except.noConfusion hf
      · rw [hG'] at hG2
        injection hG2 with h'
        rw [← h'] at hne2
        exact hne2 hcmp
    · rw [heq, fullAnalysis_parse_none env db (calculateHash B) olds hp]
    · exfalso
      rcases hfull with hf | ⟨st2, hG2, _⟩
      · rw [hG'] at hf
        injection hf with h'
        exact hne h'
      · rw [hG'] at hG2
        exact Except.noConfusion hG2
  · intro B ps e hg hb hp hfull hupd
    rcases checkForUpdates_cases env db B hg hb with
      ⟨st, hG', hcmp, heq⟩ | ⟨olds, hcase, heq⟩ | ⟨e', hG', hne, heq⟩
    · exfalso
      rcases hfull with hf | ⟨st2, hG2, hne2⟩
      · rw [hG'] at hf
        exact Except.noConfusion hf
      · rw [hG'] at hG2
        injection hG2 with h'
        rw [← h'] at hne2
        exact hne2 hcmp
    · rw [heq, fullAnalysis_parse_some env db (calculateHash B) olds ps hp]
      rcases hu : UpdateState db ⟨calculateHash B, ps⟩ env.updFail with ⟨r, db₂⟩
      rw [hu] at hupd
      have hr : r = some e := hupd
      subst hr
      rfl
    · exfalso
      rcases hfull with hf | ⟨st2, hG2, _⟩
      · rw [hG'] at hf
        injection hf with h'
        exact hne h'
      · rw [hG'] at hG2
        exact Except.noConfusion hG2
  · intro B d hb hok
    by_cases hg : env.getHTMLOk = true
    · rcases checkForUpdates_cases env db B hg hb with
        ⟨st, _, _, heq⟩ | ⟨olds, hcase, heq⟩ | ⟨e', _, _, heq⟩
      · rw [heq] at hok
        have h' : Except.ok (Changes.mk [] [] []) = Except.ok d := hok
        cases h'
        exact Or.inl ⟨by rw [heq], by rw [heq], rfl⟩
      · rw [heq] at hok ⊢
        obtain ⟨ps, hp, hd, hdb, hrep⟩ :=
          fullAnalysis_ok_shape env db (calculateHash B) olds d hok
        refine Or.inr ⟨ps, olds, hp, ?_, hd, hdb, hrep⟩
        rcases hcase with ⟨hG, holds⟩ | ⟨st, hG, _, holds⟩
        · exact Or.inl ⟨hG, holds⟩
        · exact Or.inr ⟨st, hG, holds⟩
      · rw [heq] at hok
        exact Except.noConfusion hok
    · exfalso
      unfold CheckForUpdates at hok
      rw [if_neg hg] at hok
      exact Except.noConfusion hok

def envC5 : CheckEnv := ⟨false, none, none, noReadFail, noUpdFail⟩

def envC5r : CheckEnv := ⟨true, some [], some [], ⟨false, true, false, false⟩, noUpdFail⟩

/-- Witness for C5: a fetch failure yields the fetch error and leaves the
store untouched, and an injected products-query read failure on a primed
store surfaces as a store-read error distinct from NotFound. -/
theorem C5_cycle_atomicity_witness :
    (CheckForUpdates envC5 DB.init).result = .error CheckErr.getHTMLFail ∧
    (CheckForUpdates envC5 DB.init).db = DB.init ∧
    (CheckForUpdates envC5r ⟨some "h", [pA1]⟩).result =
      .error (CheckErr.getStateFail RepoErr.productsQueryFail) :=
  ⟨(C5_cycle_atomicity envC5 DB.init).2.1 rfl,
   (C5_cycle_atomicity envC5 DB.init).1 CheckErr.getHTMLFail
     ((C5_cycle_atomicity envC5 DB.init).2.1 rfl),
   (C5_cycle_atomicity envC5r ⟨some "h", [pA1]⟩).2.2.2.2.2.1 [] "h" rfl rfl rfl rfl rfl⟩

/-! ## C9: the fingerprint function -/

theorem shaRound_length (ws st : List Nat) (t : Nat) :
    (shaRound ws st t).length = st.length := by
  unfold shaRound
  split
  · simp_all
  · rfl

theorem foldl_shaRound_length (ws : List Nat) :
    ∀ (L : List Nat) (h : List Nat), (L.foldl (shaRound ws) h).length = h.length := by
  intro L
  induction L with
  | nil => intro h; rfl
  | cons x t ih =>
    intro h
    simp only [List.foldl_cons]
    rw [ih, shaRound_length]

theorem shaCompress_length (h block : List Nat) (hh : h.length = 8) :
    (shaCompress h block).length = 8 := by
  unfold shaCompress
  rw [List.length_zipWith, foldl_shaRound_length, hh]
  simp

theorem foldl_shaCompress_length (blocks : List (List Nat)) :
    ∀ h : List Nat, h.length = 8 → (blocks.foldl shaCompress h).length = 8 := by
  induction blocks with
  | nil => intro h hh; simpa using hh
  | cons b t ih =>
    intro h hh
    simp only [List.foldl_cons]
    exact ih _ (shaCompress_length _ _ hh)

theorem flatten_length_four (f : Nat → List Nat) (hf : ∀ w, (f w).length = 4)
    (hs : List Nat) : ((hs.map f).flatten).length = 4 * hs.length := by
  induction hs with
  | nil => simp
  | cons w t ih =>
    simp only [List.map_cons, List.flatten_cons, List.length_append, hf, ih,
      List.length_cons]
    ring

theorem sha256_length (msg : List Nat) : (sha256 msg).length = 32 := by
  have h8 := foldl_shaCompress_length (chunks64 (shaPad msg)) shaH0 rfl
  show ((((chunks64 (shaPad msg)).foldl shaCompress shaH0).map
    (fun w => [(w >>> 24) % 256, (w >>> 16) % 256, (w >>> 8) % 256, w % 256])).flatten).length
      = 32
  rw [flatten_length_four
    (fun w => [(w >>> 24) % 256, (w >>> 16) % 256, (w >>> 8) % 256, w % 256])
    (fun w => rfl), h8]

theorem toHex_length (bs : List Nat) : (toHex bs).length = 2 * bs.length := by
  show (bs.foldr (fun b acc => hexDigit (b / 16 % 16) :: hexDigit (b % 16) :: acc)
    []).length = 2 * bs.length
  induction bs with
  | nil => rfl
  | cons b t ih =>
    simp only [List.foldr_cons, List.length_cons, ih]
    ring

/-- C9: the fingerprint is a total function of the input bytes: it is by
definition the lowercase hex encoding of the SHA-256 digest, two equal
inputs give equal output, the empty byte sequence yields the well-known
digest of the empty input, and every output is a valid 64-character hex
digest (no failure mode). -/
theorem C9_fingerprint_pure :
    (∀ data : List Nat, calculateHash data = toHex (sha256 data)) ∧
    calculateHash [] =
      "e3b0c44298fc1c149afbf4c8996fb92427ae41e4649b934ca495991b7852b855" ∧
    (∀ data : List Nat, (calculateHash data).length = 64) := by
  refine ⟨fun data => rfl, by decide, fun data => ?_⟩
  show (toHex (sha256 data)).length = 64
  rw [toHex_length, sha256_length]

end ChronoFlow
